import Mathlib

/-!
Verification of the appointment-export row transformer (`process_csv` in
`streamlit_app.py`).  The transformer is embedded shallowly: an input row is
an association list from column name to string value, and every string
operation of the source (Python `str.strip`, `str.split`, `' '.join`,
substring containment, `str.lower`, `str.upper` on single characters) is
modelled as an executable function on lists of characters.  The two
`datetime.strptime` fallback formats are modelled as executable parsers
following the documented strptime behaviour (fixed 4-digit year, one- or
two-digit in-range numeric fields, a run of whitespace for a literal space,
full-match required, and calendar validation as performed by the `datetime`
constructor); the platform-independent `%Z` alternatives `UTC`/`GMT` are
accepted, case-insensitively.
-/

namespace AntelopeBilling

/-- Whitespace test used by the embedded `strip` / `split()`; mirrors the
whitespace classes Python uses for the inputs that occur here. -/
def isSpace (c : Char) : Bool := c.isWhitespace

/-- Python `s.strip()` on a list of characters: drop whitespace from both
ends. -/
def trimChars (l : List Char) : List Char :=
  ((l.dropWhile isSpace).reverse.dropWhile isSpace).reverse

/-- One step of the accumulator-based whitespace splitter; `acc` holds the
current word reversed. -/
def wordsGo : List Char → List Char → List (List Char)
  | [], acc => if acc = [] then [] else [acc.reverse]
  | c :: t, acc =>
    if isSpace c then
      if acc = [] then wordsGo t [] else acc.reverse :: wordsGo t []
    else wordsGo t (c :: acc)

/-- Python `s.split()` (no separator): split on whitespace runs, discarding
empty pieces. -/
def wordsOf (l : List Char) : List (List Char) := wordsGo l []

/-- Python `' '.join(pieces)` on lists of characters. -/
def joinSpace : List (List Char) → List Char
  | [] => []
  | [w] => w
  | w :: ws => w ++ ' ' :: joinSpace ws

/-- Python `s.split(sep)` for a single-character separator: keeps empty
pieces, so the result is always non-empty. -/
def splitOnChar (sep : Char) : List Char → List (List Char)
  | [] => [[]]
  | c :: t =>
    match splitOnChar sep t with
    | [] => [[c]]
    | h :: r => if c == sep then [] :: h :: r else (c :: h) :: r

/-- Fuel-driven worker for `s.split(sep)` with a multi-character separator;
the fuel is the length of the list, which bounds the recursion depth. -/
def splitSeqGo (sep : List Char) : Nat → List Char → List (List Char)
  | _, [] => [[]]
  | 0, l => [l]
  | fuel + 1, c :: t =>
    if sep.isPrefixOf (c :: t) then
      [] :: splitSeqGo sep fuel ((c :: t).drop sep.length)
    else
      match splitSeqGo sep fuel t with
      | [] => [[c]]
      | h :: r => (c :: h) :: r

/-- Python `s.split(sep)` for a non-empty multi-character separator. -/
def pySplitSeq (sep l : List Char) : List (List Char) := splitSeqGo sep l.length l

/-- Python substring containment `pat in s`. -/
def pyContains (pat : List Char) : List Char → Bool
  | [] => pat.isPrefixOf []
  | c :: t => pat.isPrefixOf (c :: t) || pyContains pat t

/-- Python `s.strip()` at the string level. -/
def pyStrip (s : String) : String := ⟨trimChars s.data⟩

/-- Python `s.lower()` at the string level (ASCII case mapping, which covers
every comparison the source performs). -/
def pyLower (s : String) : String := ⟨s.data.map Char.toLower⟩

/-- An input record: a mapping from input column name to string value, as
produced by `csv.DictReader`. -/
abbrev Row := List (String × String)

/-- Python `row.get(key, '')`. -/
def rowGet (row : Row) (k : String) : String := (List.lookup k row).getD ""

/-- The fixed `default_columns_to_remove` constant of the source. -/
def defaultColumnsToRemove : List String :=
  ["Client Email", "Client Timezone", "Client State", "Current Status", "DOB",
   "Primary Insurance", "Phone Number", "Scheduled By", "Date of Last Status Change",
   "Scheduled Length", "Actual Duration", "Contact Type", "Location", "Reason", "Notes",
   "Client's Current Group", "Scheduled At",
   "Number of Times Rescheduled By Client", "Tags", "Charting Note Locked",
   "Referring Physician 1 Name", "Referring Physician 1 Phone", "Referring Physician 1 Fax",
   "Referring Physician 2 Name", "Referring Physician 2 Phone", "Referring Physician 2 Fax",
   "Referring Physician 3 Name", "Referring Physician 3 Phone", "Referring Physician 3 Fax"]

/-- The fixed `cpt_code_mapping` constant of the source. -/
def cptCodeMapping : List (String × String) :=
  [("Teen Group Session", "90853"),
   ("Parent Group", "90853"),
   ("Individual Therapy Session - 60 minutes", "90837"),
   ("Mentor Session - 45 minutes", "H0038 - 3"),
   ("Individual Therapy Session - 45 minutes", "90834"),
   ("Case Consultation", "90846, 90832"),
   ("Parent Coaching Session", "90846"),
   ("Family Therapy Session", "90847"),
   ("Evaluation Session", "90791"),
   ("Psychological Assessment", "90791"),
   ("Parent Coaching Session - 30 minutes", "90846"),
   ("Individual Therapy Session 30 minutes", "90832"),
   ("Individual Therapy Session", "90832"),
   ("Mentor Session - 30 minutes", "H0038 - 2"),
   ("Mentor Session - 60 minutes", "H0038 - 4"),
   ("Parent Coaching Session - Group Appointment", "90846"),
   ("Health and Wellness Session", "H2014"),
   ("Onboarding Appointment", "90791"),
   ("In-School Session", "90837"),
   ("Family Evaluation Session", "90791"),
   ("Individual Therapy Session  30 minutes", "90832"),
   ("Teen Evaluation Session", "90791")]

/-- The fixed `header_mapping` constant of the source (output column →
input column). -/
def headerMapping : List (String × String) :=
  [("Date Fixed", "Date"),
   ("Name", "Client Name"),
   ("Unique ID", "Unique ID"),
   ("Group Attendance", "Group Attendance"),
   ("Provider", "Provider"),
   ("Status", "Status"),
   ("Appointment Type", "Appointment Type"),
   ("Chart Note Written", "Chart Note Written"),
   ("Missing Info", "Missing Info"),
   ("Appointment ID", "Appointment ID"),
   ("CPT Code", "CPT Code")]

/-- The fixed `spreadsheet_headers` constant of the source. -/
def spreadsheetHeaders : List String :=
  ["Billed", "CMS1500", "Family ID", "Unique ID", "Appointment ID", "Date Fixed", "Week", "Month",
   "Appointment Type", "CPT Code", "Provider", "Status", "Billing Status",
   "Name", "Group Attendance", "Chart Note Written", "Missing Info"]

/-- `client_names = [name.strip() for name in row['Client Name'].split(',')]`. -/
def clientNamesOf (row : Row) : List String :=
  (splitOnChar ',' (rowGet row "Client Name").data).map (fun l => (⟨trimChars l⟩ : String))

/-- `num_clients = len(client_names)`. -/
def numClientsOf (row : Row) : Nat := (clientNamesOf row).length

/-- The nested `get_field_values` helper: split a comma-separated per-client
field, trim the pieces, treat a blank field as no entries, then pad with
empty strings or truncate to the client count. -/
def getFieldValues (row : Row) (numClients : Nat) (fieldName : String) : List String :=
  let fieldValue := rowGet row fieldName
  let values :=
    if trimChars fieldValue.data == [] then []
    else (splitOnChar ',' fieldValue.data).map (fun l => (⟨trimChars l⟩ : String))
  if values.length < numClients then values ++ List.replicate (numClients - values.length) ""
  else if values.length > numClients then values.take numClients
  else values

def uniqueIdsOf (row : Row) : List String :=
  getFieldValues row (numClientsOf row) "Unique ID"

def groupAttendanceOf (row : Row) : List String :=
  getFieldValues row (numClientsOf row) "Group Attendance"

def diagnosisCodesOf (row : Row) : List String :=
  getFieldValues row (numClientsOf row) "Client's Diagnosis Codes"

/-- `' '.join(s.strip().split())`: the appointment-type normalization. -/
def normalizeWs (s : String) : String := ⟨joinSpace (wordsOf (trimChars s.data))⟩

def normalizedApptTypeOf (row : Row) : String := normalizeWs (rowGet row "Appointment Type")

/-- The appointment-type cleaning chain of the source: first `' - '`, else a
double space, else a trailing `... N minutes` suffix, else unchanged. -/
def cleanedApptType (n : List Char) : List Char :=
  if pyContains [' ', '-', ' '] n then (pySplitSeq [' ', '-', ' '] n).headD []
  else if pyContains [' ', ' '] n then (pySplitSeq [' ', ' '] n).headD []
  else if pyContains [' '] n
      && "minutes".data.isSuffixOf ((splitOnChar ' ' n).getLastD []) then
    joinSpace ((splitOnChar ' ' n).take ((splitOnChar ' ' n).length - 2))
  else n

def cleanedApptTypeOf (row : Row) : String :=
  ⟨cleanedApptType (normalizedApptTypeOf row).data⟩

/-- The nested `abbreviate` helper: the upper-cased initials of the
whitespace-separated words. -/
def abbreviate (t : String) : String :=
  if t == "" then ""
  else ⟨(wordsOf (trimChars t.data)).map (fun w => Char.toUpper (w.headD ' '))⟩

def apptTypeAbbrOf (row : Row) : String := abbreviate (cleanedApptTypeOf row)

def providerAbbrOf (row : Row) : String := abbreviate (rowGet row "Provider")

/-- A parsed timestamp, as produced by the embedded `strptime`. -/
structure PDateTime where
  year : Nat
  month : Nat
  day : Nat
  hour : Nat
  minute : Nat
  second : Nat
deriving DecidableEq, Repr, Inhabited

def dval (c : Char) : Nat := c.toNat - 48

/-- strptime `%Y`: exactly four digits. -/
def parse4Y : List Char → Option (Nat × List Char)
  | a :: b :: c :: d :: rest =>
    if a.isDigit && b.isDigit && c.isDigit && d.isDigit then
      some (((dval a * 10 + dval b) * 10 + dval c) * 10 + dval d, rest)
    else none
  | _ => none

/-- strptime numeric field: prefer two digits when the two-digit value lies
in `[lo2, hi2]`, else accept one digit that is at least `lo1`; mirrors the
alternation of the strptime field patterns. -/
def parse2or1 (lo2 hi2 lo1 : Nat) : List Char → Option (Nat × List Char)
  | a :: b :: rest =>
    if a.isDigit && b.isDigit && decide (lo2 ≤ dval a * 10 + dval b)
        && decide (dval a * 10 + dval b ≤ hi2) then
      some (dval a * 10 + dval b, rest)
    else if a.isDigit && decide (lo1 ≤ dval a) then some (dval a, b :: rest)
    else none
  | [a] => if a.isDigit && decide (lo1 ≤ dval a) then some (dval a, []) else none
  | [] => none

/-- A literal whitespace in a strptime format: one or more whitespace
characters. -/
def skipWs : List Char → Option (List Char)
  | c :: t => if isSpace c then some (t.dropWhile isSpace) else none
  | [] => none

def expectChar (c : Char) : List Char → Option (List Char)
  | x :: t => if x == c then some t else none
  | [] => none

def isLeap (y : Nat) : Bool := y % 4 == 0 && (y % 100 != 0 || y % 400 == 0)

def daysInMonth (y m : Nat) : Nat :=
  if m == 2 then (if isLeap y then 29 else 28)
  else if m == 4 || m == 6 || m == 9 || m == 11 then 30
  else 31

/-- The range checks performed by the `datetime` constructor; an
out-of-range component raises `ValueError`, which the source treats as a
parse failure. -/
def validate (y mo d h mi s : Nat) : Option PDateTime :=
  if 1 ≤ y && y ≤ 9999 && 1 ≤ mo && mo ≤ 12 && 1 ≤ d && d ≤ daysInMonth y mo
      && h ≤ 23 && mi ≤ 59 && s ≤ 59 then
    some ⟨y, mo, d, h, mi, s⟩
  else none

/-- The common `%Y-%m-%d %H:%M:%S` part of both formats. -/
def parseCore (l : List Char) : Option ((Nat × Nat × Nat × Nat × Nat × Nat) × List Char) := do
  let (y, l) ← parse4Y l
  let l ← expectChar '-' l
  let (mo, l) ← parse2or1 1 12 1 l
  let l ← expectChar '-' l
  let (d, l) ← parse2or1 1 31 1 l
  let l ← skipWs l
  let (h, l) ← parse2or1 0 23 0 l
  let l ← expectChar ':' l
  let (mi, l) ← parse2or1 0 59 0 l
  let l ← expectChar ':' l
  let (s, l) ← parse2or1 0 59 0 l
  pure ((y, mo, d, h, mi, s), l)

/-- `datetime.strptime(s, '%Y-%m-%d %H:%M:%S')`: the whole string must be
consumed. -/
def parseNoZone (l : List Char) : Option PDateTime :=
  match parseCore l with
  | some ((y, mo, d, h, mi, s), rest) => if rest == [] then validate y mo d h mi s else none
  | none => none

/-- `datetime.strptime(s, '%Y-%m-%d %H:%M:%S %Z')` with the
platform-independent `%Z` alternatives (`UTC`/`GMT`, case-insensitive). -/
def parseWithZone (l : List Char) : Option PDateTime :=
  match parseCore l with
  | some ((y, mo, d, h, mi, s), rest) =>
    match skipWs rest with
    | some z =>
      if (z.map Char.toLower) == "utc".data || (z.map Char.toLower) == "gmt".data then
        validate y mo d h mi s
      else none
    | none => none
  | none => none

/-- `datetime.strptime(s, '%Y-%m-%d')`. -/
def parseYmdOnly (l : List Char) : Option PDateTime :=
  match parse4Y l with
  | some (y, l) =>
    match expectChar '-' l with
    | some l =>
      match parse2or1 1 12 1 l with
      | some (mo, l) =>
        match expectChar '-' l with
        | some l =>
          match parse2or1 1 31 1 l with
          | some (d, rest) => if rest == [] then validate y mo d 0 0 0 else none
          | none => none
        | none => none
      | none => none
    | none => none
  | none => none

/-- Python `s[:-n]`. -/
def strDropRight (s : String) (n : Nat) : String := ⟨s.data.take (s.data.length - n)⟩

def pad2 (n : Nat) : String := if n < 10 then "0" ++ toString n else toString n

def pad4 (n : Nat) : String :=
  if n < 10 then "000" ++ toString n
  else if n < 100 then "00" ++ toString n
  else if n < 1000 then "0" ++ toString n
  else toString n

/-- `strftime('%Y-%m-%d')`. -/
def fmtDateOnly (dt : PDateTime) : String :=
  pad4 dt.year ++ "-" ++ pad2 dt.month ++ "-" ++ pad2 dt.day

/-- Days of the months before month `m` in year `y`. -/
def daysBeforeMonth (y m : Nat) : Nat :=
  ((List.range (m - 1)).map (fun k => daysInMonth y (k + 1))).foldl (· + ·) 0

/-- The proleptic-Gregorian ordinal used by `date.toordinal` (day 1 is
0001-01-01, a Monday). -/
def toOrdinal (y m d : Nat) : Nat :=
  365 * (y - 1) + (y - 1) / 4 + (y - 1) / 400 - (y - 1) / 100 + daysBeforeMonth y m + d

def predDate (dt : PDateTime) : PDateTime :=
  if dt.day > 1 then { dt with day := dt.day - 1 }
  else if dt.month > 1 then
    { dt with month := dt.month - 1, day := daysInMonth dt.year (dt.month - 1) }
  else { dt with year := dt.year - 1, month := 12, day := 31 }

def subDays : PDateTime → Nat → PDateTime
  | dt, 0 => dt
  | dt, k + 1 => subDays (predDate dt) k

/-- `(date_obj - timedelta(days=date_obj.weekday())).strftime('%-m/%-d/%Y')`. -/
def weekStartStr (dt : PDateTime) : String :=
  let wd := (toOrdinal dt.year dt.month dt.day + 6) % 7
  let ws := subDays dt wd
  toString ws.month ++ "/" ++ toString ws.day ++ "/" ++ toString ws.year

def monthNames : List String :=
  ["January", "February", "March", "April", "May", "June",
   "July", "August", "September", "October", "November", "December"]

/-- `strftime('%B %y')`. -/
def monthStr (dt : PDateTime) : String :=
  (monthNames.getD (dt.month - 1) "") ++ " " ++ pad2 (dt.year % 100)

/-- The date-parsing fallback chain of the source: skip an empty `Date`
field, try the zoned format, then the plain format on the string with its
last four characters stripped. -/
def dresOf (row : Row) : Option PDateTime :=
  let odt := rowGet row "Date"
  if odt = "" then none
  else
    match parseWithZone odt.data with
    | some dt => some dt
    | none => parseNoZone (strDropRight odt 4).data

def dateOnlyOf (row : Row) : String :=
  match dresOf row with
  | some dt => fmtDateOnly dt
  | none => ""

def timeOnlyOf (row : Row) : String :=
  match dresOf row with
  | some dt => pad2 dt.hour ++ pad2 dt.minute
  | none => ""

def dateForIdOf (row : Row) : String :=
  match dresOf row with
  | some dt => pad2 dt.month ++ pad2 dt.day ++ pad2 (dt.year % 100)
  | none => ""

def timeForIdOf (row : Row) : String :=
  match dresOf row with
  | some dt => pad2 dt.hour ++ pad2 dt.minute
  | none => ""

/-- Week and Month strings: the source re-parses `date_only` with
`'%Y-%m-%d'` inside a guard on its non-emptiness. -/
def weekMonthOf (row : Row) : String × String :=
  let d := dateOnlyOf row
  if d = "" then ("", "")
  else
    match parseYmdOnly d.data with
    | some dt => (weekStartStr dt, monthStr dt)
    | none => ("", "")

/-- The value the row loop stores in `new_row[sh]` for output column `sh`
and client index `i` (before the group-status override). -/
def newRowValue (row : Row) (i : Nat) (sh : String) : String :=
  if sh == "Billed" || sh == "Family ID" || sh == "Billing Status" then ""
  else if sh == "Date Fixed" then dateOnlyOf row
  else if sh == "Week" then (weekMonthOf row).1
  else if sh == "Month" then (weekMonthOf row).2
  else if sh == "Appointment ID" then
    let uniqueId := (uniqueIdsOf row).getD i ""
    dateForIdOf row ++ "-" ++ timeForIdOf row ++ "-" ++ uniqueId ++ "-"
      ++ apptTypeAbbrOf row ++ "-" ++ providerAbbrOf row
  else if sh == "CMS1500" then
    let uniqueId := (uniqueIdsOf row).getD i ""
    if uniqueId == "" then ""
    else "https://secure.gethealthie.com/cms1500s/new/?patient_id=" ++ uniqueId
  else if sh == "CPT Code" then (List.lookup (normalizedApptTypeOf row) cptCodeMapping).getD ""
  else
    match List.lookup sh headerMapping with
    | some csvHeader =>
      if csvHeader == "Client Name" then (clientNamesOf row).getD i ""
      else if csvHeader == "Unique ID" then (uniqueIdsOf row).getD i ""
      else if csvHeader == "Group Attendance" then (groupAttendanceOf row).getD i ""
      else rowGet row csvHeader
    | none => ""

/-- The group-appointment Status override: for more than one client,
`yes`/`no` group attendance (trimmed, lower-cased) forces
`Occurred`/`Did not attend`; anything else keeps the copied Status. -/
def statusOverridden (row : Row) (i : Nat) : String :=
  let s := newRowValue row i "Status"
  if numClientsOf row > 1 then
    let ga := pyLower (pyStrip (newRowValue row i "Group Attendance"))
    if ga == "yes" then "Occurred"
    else if ga == "no" then "Did not attend"
    else s
  else s

/-- The i-th group-attendance entry, trimmed and lower-cased, as consulted
by the Status override. -/
def gaNorm (row : Row) (i : Nat) : String :=
  pyLower (pyStrip ((groupAttendanceOf row).getD i ""))

/-- The Missing-Info tags, in the order the source appends them.  The
Status-related checks read the overridden Status. -/
def missingTags (row : Row) (i : Nat) : List String :=
  let t1 :=
    if numClientsOf row > 1 then
      if pyStrip (newRowValue row i "Group Attendance") == "" then ["Attendance"] else []
    else []
  let status := statusOverridden row i
  let t2 := if pyStrip status == "" then ["Status"] else []
  let cn := pyLower (pyStrip (newRowValue row i "Chart Note Written"))
  let t3 := if cn == "no" || cn == "" then ["Note"] else []
  let t4 :=
    if newRowValue row i "CPT Code" == "90791" && pyStrip status == "Occurred" then
      if pyStrip ((diagnosisCodesOf row).getD i "") == "" then ["Diagnosis"] else []
    else []
  t1 ++ t2 ++ t3 ++ t4

/-- One output record: the 17 fixed output columns. -/
structure OutputRecord where
  billed : String
  cms1500 : String
  familyId : String
  uniqueId : String
  appointmentId : String
  dateFixed : String
  week : String
  month : String
  appointmentType : String
  cptCode : String
  provider : String
  status : String
  billingStatus : String
  name : String
  groupAttendance : String
  chartNoteWritten : String
  missingInfo : String
deriving DecidableEq, Repr, Inhabited

/-- The record written for client index `i` of a row. -/
def recordFor (row : Row) (i : Nat) : OutputRecord where
  billed := newRowValue row i "Billed"
  cms1500 := newRowValue row i "CMS1500"
  familyId := newRowValue row i "Family ID"
  uniqueId := newRowValue row i "Unique ID"
  appointmentId := newRowValue row i "Appointment ID"
  dateFixed := newRowValue row i "Date Fixed"
  week := newRowValue row i "Week"
  month := newRowValue row i "Month"
  appointmentType := newRowValue row i "Appointment Type"
  cptCode := newRowValue row i "CPT Code"
  provider := newRowValue row i "Provider"
  status := statusOverridden row i
  billingStatus := newRowValue row i "Billing Status"
  name := newRowValue row i "Name"
  groupAttendance := newRowValue row i "Group Attendance"
  chartNoteWritten := newRowValue row i "Chart Note Written"
  missingInfo :=
    if missingTags row i = [] then "" else String.intercalate ", " (missingTags row i)

/-- The records emitted for one input row: one per client index. -/
def processRow (row : Row) : List OutputRecord :=
  (List.range (numClientsOf row)).map (recordFor row)

/-- Per-row processing including the unguarded `row['Client Name']` access:
a row whose mapping lacks the `Client Name` key raises (modelled as
`none`). -/
def processRowChecked (row : Row) : Option (List OutputRecord) :=
  match List.lookup "Client Name" row with
  | some _ => some (processRow row)
  | none => none

/-- The whole-table transform: rows are processed in order and the first
failing row aborts the whole batch. -/
def processTable : List Row → Option (List (List OutputRecord))
  | [] => some []
  | r :: rest =>
    match processRowChecked r with
    | some recs =>
      match processTable rest with
      | some others => some (recs :: others)
      | none => none
    | none => none

/-- The filtering of `remove_cols` against `reader.fieldnames`.  For empty
input content `DictReader` has no header row and `fieldnames` is absent
(`None`); evaluating the membership test against it raises `TypeError` as
soon as the list has an element, while an empty list never evaluates the
test and yields the empty filtering.  The raised error is modelled as
`none`. -/
def columnsToRemoveOf (removeCols : List String) (fieldnames : Option (List String)) :
    Option (List String) :=
  match fieldnames with
  | some fns => some (removeCols.filter (fun c => fns.contains c))
  | none =>
    match removeCols with
    | [] => some []
    | _ :: _ => none

/-- `process_csv(input_csv, remove_cols)` after CSV decoding: `remove_cols`
defaults to the fixed list and is filtered against the parsed header
(absent for empty input); the filtered list is then never consulted.  A
raised error during the filtering aborts with no output (`none`). -/
def process_csv (rows : List Row) (fieldnames : Option (List String))
    (removeCols : Option (List String)) : Option (List (List OutputRecord)) :=
  let cols := removeCols.getD defaultColumnsToRemove
  match columnsToRemoveOf cols fieldnames with
  | some _ => processTable rows
  | none => none

/-- The i-th comma-separated trimmed entry of a field value, with empty
string past the end; used to state the index-alignment claims. -/
def entryAt (v : String) (i : Nat) : String :=
  ((splitOnChar ',' v.data).map (fun l => (⟨trimChars l⟩ : String))).getD i ""

/-- No two adjacent spaces anywhere in the list; the invariant behind the
unreachability of the double-space cleaning branch. -/
def nods : List Char → Bool
  | a :: b :: t => !(a == ' ' && b == ' ') && nods (b :: t)
  | _ => true

/-- A single-client row whose appointment type carries a duration suffix. -/
def exC1Row : Row :=
  [("Client Name", "Alice"), ("Appointment Type", "Individual Therapy Session - 45 minutes")]

/-- The worked example row of the specification (two clients, zoned date,
blank Status, chart note "no"). -/
def ex5Row : Row :=
  [("Client Name", "Alice, Bob"), ("Date", "2024-03-07 10:00:00 EST"),
   ("Appointment Type", "Individual Therapy Session - 45 minutes"),
   ("Unique ID", "111,222"), ("Group Attendance", "yes,no"),
   ("Status", ""), ("Chart Note Written", "no")]

/-- A row whose `Date` value fails both parse attempts. -/
def exC4Row : Row :=
  [("Client Name", "Alice"), ("Date", "not a date"),
   ("Provider", "Jane Smith"), ("Unique ID", "42")]

/-- A row without the `Client Name` column. -/
def exC6RowA : Row := [("Provider", "X")]

/-- A row with the `Client Name` column and nothing else. -/
def exC6RowB : Row := [("Client Name", "Alice")]

/-- A row whose `Client Name` value is the empty string. -/
def exC10Row : Row := [("Client Name", "")]

lemma getD_map_range {α : Type} (f : Nat → α) (d : α) :
    ∀ (n i : Nat), i < n → ((List.range n).map f).getD i d = f i := by
  intro n
  induction n with
  | zero => intro i hi; omega
  | succ n ih =>
    intro i hi
    rw [List.range_succ, List.map_append]
    by_cases hlt : i < n
    · rw [List.getD_append _ _ _ _ (by simpa using hlt)]
      exact ih i hlt
    · have hin : i = n := by omega
      subst hin
      rw [List.getD_append_right _ _ _ _ (by simp)]
      simp

lemma getD_take_lt {α : Type} (d : α) :
    ∀ (l : List α) (n i : Nat), i < n → (l.take n).getD i d = l.getD i d := by
  intro l
  induction l with
  | nil => intro n i _; simp
  | cons a t ih =>
    intro n i hi
    cases n with
    | zero => omega
    | succ n =>
      cases i with
      | zero => simp
      | succ i => simpa using ih n i (by omega)

lemma getD_replicate_self {α : Type} (d : α) :
    ∀ (k i : Nat), (List.replicate k d).getD i d = d := by
  intro k
  induction k with
  | zero => intro i; simp
  | succ k ih =>
    intro i
    cases i with
    | zero => simp [List.replicate_succ]
    | succ i => simp only [List.replicate_succ, List.getD_cons_succ]; exact ih i

lemma trim_allspace {l : List Char} (h : trimChars l = []) : ∀ c ∈ l, isSpace c = true := by
  intro c hc
  unfold trimChars at h
  rw [List.reverse_eq_nil_iff] at h
  have h2 : ∀ x ∈ (List.dropWhile isSpace l).reverse, isSpace x := List.dropWhile_eq_nil_iff.mp h
  have h3 : ∀ x ∈ List.dropWhile isSpace l, isSpace x = true := by
    intro x hx; exact h2 x (List.mem_reverse.mpr hx)
  have hsplit := List.takeWhile_append_dropWhile (p := isSpace) (l := l)
  rw [← hsplit] at hc
  rcases List.mem_append.mp hc with hl | hr
  · exact List.mem_takeWhile_imp hl
  · exact h3 c hr

lemma splitOnChar_no_sep {sep : Char} :
    ∀ {l : List Char}, (∀ c ∈ l, (c == sep) = false) → splitOnChar sep l = [l] := by
  intro l
  induction l with
  | nil => intro _; rfl
  | cons c t ih =>
    intro h
    have hc : (c == sep) = false := h c (List.mem_cons_self c t)
    have ht : splitOnChar sep t = [t] := ih (fun x hx => h x (List.mem_cons_of_mem c hx))
    simp [splitOnChar, ht, hc]

lemma getFieldValues_getD (row : Row) (n : Nat) (f : String) (i : Nat) (h : i < n) :
    (getFieldValues row n f).getD i "" = entryAt (rowGet row f) i := by
  unfold getFieldValues entryAt
  by_cases htr : trimChars (rowGet row f).data = []
  · have hb : (trimChars (rowGet row f).data == []) = true := by
      simp [htr]
    simp only [hb, if_true]
    have hsep : ∀ c ∈ (rowGet row f).data, (c == ',') = false := by
      intro c hc
      have hcs := trim_allspace htr c hc
      by_cases hcc : c = ','
      · subst hcc; exact absurd hcs (by decide)
      · exact beq_eq_false_iff_ne.mpr hcc
    rw [if_pos (show (List.length ([] : List String)) < n by simp; omega)]
    rw [List.nil_append, getD_replicate_self]
    rw [splitOnChar_no_sep hsep]
    simp only [List.map_cons, List.map_nil]
    rw [htr]
    cases i with
    | zero => rfl
    | succ i => simp
  · have hb : (trimChars (rowGet row f).data == []) = false := beq_eq_false_iff_ne.mpr htr
    simp only [hb, Bool.false_eq_true, if_false]
    set E := (splitOnChar ',' (rowGet row f).data).map
        (fun l => (⟨trimChars l⟩ : String)) with hE
    by_cases h1 : E.length < n
    · rw [if_pos h1]
      by_cases h2 : i < E.length
      · rw [List.getD_append _ _ _ _ h2]
      · rw [List.getD_append_right _ _ _ _ (by omega), getD_replicate_self]
        exact (List.getD_eq_default _ _ (by omega)).symm
    · rw [if_neg h1]
      by_cases h3 : E.length > n
      · rw [if_pos h3]
        exact getD_take_lt _ E n i h
      · rw [if_neg h3]

lemma processRow_length (row : Row) : (processRow row).length = numClientsOf row := by
  simp [processRow]

lemma processRow_getD (row : Row) (i : Nat) (h : i < numClientsOf row) :
    (processRow row).getD i default = recordFor row i := by
  unfold processRow
  exact getD_map_range _ _ _ i h

lemma newRowValue_dateFixed (row : Row) (i : Nat) :
    newRowValue row i "Date Fixed" = dateOnlyOf row := rfl

lemma newRowValue_week (row : Row) (i : Nat) :
    newRowValue row i "Week" = (weekMonthOf row).1 := rfl

lemma newRowValue_month (row : Row) (i : Nat) :
    newRowValue row i "Month" = (weekMonthOf row).2 := rfl

lemma newRowValue_apptId (row : Row) (i : Nat) :
    newRowValue row i "Appointment ID"
      = dateForIdOf row ++ "-" ++ timeForIdOf row ++ "-" ++ (uniqueIdsOf row).getD i "" ++ "-"
        ++ apptTypeAbbrOf row ++ "-" ++ providerAbbrOf row := rfl

lemma newRowValue_uniqueId (row : Row) (i : Nat) :
    newRowValue row i "Unique ID" = (uniqueIdsOf row).getD i "" := rfl

lemma newRowValue_groupAttendance (row : Row) (i : Nat) :
    newRowValue row i "Group Attendance" = (groupAttendanceOf row).getD i "" := rfl

lemma newRowValue_name (row : Row) (i : Nat) :
    newRowValue row i "Name" = (clientNamesOf row).getD i "" := rfl

lemma newRowValue_status (row : Row) (i : Nat) :
    newRowValue row i "Status" = rowGet row "Status" := rfl

lemma newRowValue_apptType (row : Row) (i : Nat) :
    newRowValue row i "Appointment Type" = rowGet row "Appointment Type" := rfl

lemma newRowValue_chartNote (row : Row) (i : Nat) :
    newRowValue row i "Chart Note Written" = rowGet row "Chart Note Written" := rfl

/-- C1, counterexample: on a row whose appointment type is
`Individual Therapy Session - 45 minutes`, the emitted record's
`Appointment Type` field is the raw input string, while the cleaned value
(step-4 output) is the distinct string `Individual Therapy Session`, so the
output field does not equal the cleaned value. -/
theorem claim_C1_counterexample :
    ((processRow exC1Row).getD 0 default).appointmentType
        = "Individual Therapy Session - 45 minutes"
    ∧ cleanedApptTypeOf exC1Row = "Individual Therapy Session"
    ∧ ("Individual Therapy Session - 45 minutes" : String)
        ≠ "Individual Therapy Session" := by
  refine ⟨by decide, by decide, by decide⟩

/-- C1, amended: each of the N expanded output records has its
`Appointment Type` field equal to the raw input `Appointment Type` string
(copied via `row.get`); the cleaned appointment type feeds only the
abbreviation inside the Appointment ID. -/
theorem claim_C1_amended (row : Row) (i : Nat) (h : i < numClientsOf row) :
    ((processRow row).getD i default).appointmentType = rowGet row "Appointment Type" := by
  rw [processRow_getD row i h]
  exact newRowValue_apptType row i

/-- C1, witness for the amended claim at a concrete row. -/
theorem claim_C1_amended_witness :
    0 < numClientsOf exC1Row
    ∧ ((processRow exC1Row).getD 0 default).appointmentType = rowGet exC1Row "Appointment Type" :=
  ⟨by decide, claim_C1_amended exC1Row 0 (by decide)⟩

/-- C2: a row with N comma-separated client names yields exactly N output
records, and for each i below N the per-client fields (Unique ID, Group
Attendance, diagnosis codes) of record i are the i-th comma-separated
trimmed entry of the corresponding input field, empty past the provided
entries; entries beyond N never appear because only indices below N are
emitted. -/
theorem claim_C2 (row : Row) :
    (processRow row).length = (splitOnChar ',' (rowGet row "Client Name").data).length
    ∧ ∀ i, i < numClientsOf row →
        ((processRow row).getD i default).uniqueId = entryAt (rowGet row "Unique ID") i
        ∧ ((processRow row).getD i default).groupAttendance
            = entryAt (rowGet row "Group Attendance") i
        ∧ (diagnosisCodesOf row).getD i "" = entryAt (rowGet row "Client's Diagnosis Codes") i := by
  constructor
  · rw [processRow_length]
    simp [numClientsOf, clientNamesOf]
  · intro i hi
    rw [processRow_getD row i hi]
    refine ⟨?_, ?_, ?_⟩
    · show newRowValue row i "Unique ID" = _
      rw [newRowValue_uniqueId]
      exact getFieldValues_getD row (numClientsOf row) "Unique ID" i hi
    · show newRowValue row i "Group Attendance" = _
      rw [newRowValue_groupAttendance]
      exact getFieldValues_getD row (numClientsOf row) "Group Attendance" i hi
    · exact getFieldValues_getD row (numClientsOf row) "Client's Diagnosis Codes" i hi

/-- C2, witness at the two-client example row, index 0. -/
theorem claim_C2_witness :
    ((processRow ex5Row).length = (splitOnChar ',' (rowGet ex5Row "Client Name").data).length)
    ∧ (((processRow ex5Row).getD 0 default).uniqueId = entryAt (rowGet ex5Row "Unique ID") 0
       ∧ ((processRow ex5Row).getD 0 default).groupAttendance
           = entryAt (rowGet ex5Row "Group Attendance") 0
       ∧ (diagnosisCodesOf ex5Row).getD 0 ""
           = entryAt (rowGet ex5Row "Client's Diagnosis Codes") 0) :=
  ⟨(claim_C2 ex5Row).1, (claim_C2 ex5Row).2 0 (by decide)⟩

/-- C8, counterexample: on empty input content the parsed header is absent
and there are no rows; a supplied empty columns-to-remove list then yields
the header-only output, while the default list raises inside the
filtering, so the `remove_cols` argument does affect the output. -/
theorem claim_C8_counterexample :
    process_csv [] none (some []) = some []
    ∧ process_csv [] none none = none
    ∧ process_csv [] none (some []) ≠ process_csv [] none none := by decide

/-- C8, amended: for every input whose header row is present (the parsed
fieldnames exist), the `remove_cols` argument has no effect on the output:
the result equals the result under the default list.  Only the empty
input distinguishes the lists, where any non-empty list — the default
included — raises during the filtering while a supplied empty list does
not. -/
theorem claim_C8_amended (rows : List Row) (fieldnames : List String) (rc : List String) :
    process_csv rows (some fieldnames) (some rc)
      = process_csv rows (some fieldnames) none := rfl

/-- C10: every input row yields at least one output record; a row whose
`Client Name` is the empty string yields exactly one record whose `Name`
field is empty, because splitting the empty string on commas gives one
empty name. -/
theorem claim_C10 (row : Row) :
    1 ≤ (processRow row).length
    ∧ (rowGet row "Client Name" = "" →
        (processRow row).length = 1 ∧ ((processRow row).getD 0 default).name = "") := by
  have hpos : ∀ (l : List Char), 0 < (splitOnChar ',' l).length := by
    intro l
    induction l with
    | nil => simp [splitOnChar]
    | cons c t ih =>
      simp only [splitOnChar]
      split
      · simp
      · split <;> simp
  constructor
  · rw [processRow_length]
    unfold numClientsOf clientNamesOf
    simp only [List.length_map]
    exact hpos _
  · intro h
    have hn : numClientsOf row = 1 := by
      unfold numClientsOf clientNamesOf
      rw [h]
      rfl
    refine ⟨by rw [processRow_length, hn], ?_⟩
    rw [processRow_getD row 0 (by omega)]
    show newRowValue row 0 "Name" = ""
    rw [newRowValue_name]
    unfold clientNamesOf
    rw [h]
    rfl

/-- C10, witness at the empty-name row. -/
theorem claim_C10_witness :
    1 ≤ (processRow exC10Row).length
    ∧ ((processRow exC10Row).length = 1 ∧ ((processRow exC10Row).getD 0 default).name = "") :=
  ⟨(claim_C10 exC10Row).1, (claim_C10 exC10Row).2 (by decide)⟩

lemma statusOverridden_eq (row : Row) (i : Nat) (hN : 1 < numClientsOf row) :
    statusOverridden row i =
      if gaNorm row i == "yes" then "Occurred"
      else if gaNorm row i == "no" then "Did not attend"
      else rowGet row "Status" := by
  simp only [statusOverridden]
  rw [if_pos hN]
  rfl

lemma mem_ite_nil {α : Type} {c : Prop} [Decidable c] {x : α} {l : List α} :
    x ∈ (if c then l else []) ↔ c ∧ x ∈ l := by
  split
  · case isTrue h => simp [h]
  · case isFalse h => simp [h]

lemma status_mem_missingTags (row : Row) (i : Nat) :
    "Status" ∈ missingTags row i ↔ pyStrip (statusOverridden row i) = "" := by
  simp only [missingTags]
  have hA : ("Status" : String) ≠ "Attendance" := by decide
  have hNt : ("Status" : String) ≠ "Note" := by decide
  have hD : ("Status" : String) ≠ "Diagnosis" := by decide
  simp [mem_ite_nil, List.mem_append, hA, hNt, hD, beq_iff_eq]

/-- C3: for a group row (N greater than 1) and client index i below N, a
trimmed lower-cased group-attendance entry "yes" forces Status "Occurred",
"no" forces "Did not attend", anything else keeps the copied input Status;
and the Missing-Info "Status" tag appears exactly when the overridden
Status is blank, so an overridden non-empty Status never produces it. -/
theorem claim_C3 (row : Row) (i : Nat) (hN : 1 < numClientsOf row) (hi : i < numClientsOf row) :
    (gaNorm row i = "yes" → ((processRow row).getD i default).status = "Occurred")
    ∧ (gaNorm row i = "no" → ((processRow row).getD i default).status = "Did not attend")
    ∧ (gaNorm row i ≠ "yes" → gaNorm row i ≠ "no" →
        ((processRow row).getD i default).status = rowGet row "Status")
    ∧ ("Status" ∈ missingTags row i ↔ pyStrip ((processRow row).getD i default).status = "") := by
  have hrec : ((processRow row).getD i default).status = statusOverridden row i := by
    rw [processRow_getD row i hi]
    rfl
  rw [hrec]
  refine ⟨?_, ?_, ?_, ?_⟩
  · intro hyes
    rw [statusOverridden_eq row i hN, hyes]
    rfl
  · intro hno
    rw [statusOverridden_eq row i hN, hno]
    rfl
  · intro h1 h2
    rw [statusOverridden_eq row i hN]
    have hb1 : ¬((gaNorm row i == "yes") = true) := by
      simp only [beq_iff_eq]; exact h1
    have hb2 : ¬((gaNorm row i == "no") = true) := by
      simp only [beq_iff_eq]; exact h2
    rw [if_neg hb1, if_neg hb2]
  · exact status_mem_missingTags row i

/-- C3, witness at the two-client example row, index 0. -/
theorem claim_C3_witness :
    (gaNorm ex5Row 0 = "yes" → ((processRow ex5Row).getD 0 default).status = "Occurred")
    ∧ (gaNorm ex5Row 0 = "no" → ((processRow ex5Row).getD 0 default).status = "Did not attend")
    ∧ (gaNorm ex5Row 0 ≠ "yes" → gaNorm ex5Row 0 ≠ "no" →
        ((processRow ex5Row).getD 0 default).status = rowGet ex5Row "Status")
    ∧ ("Status" ∈ missingTags ex5Row 0
        ↔ pyStrip ((processRow ex5Row).getD 0 default).status = "") :=
  claim_C3 ex5Row 0 (by decide) (by decide)

lemma dres_none (row : Row) (h1 : parseWithZone (rowGet row "Date").data = none)
    (h2 : parseNoZone (strDropRight (rowGet row "Date") 4).data = none) :
    dresOf row = none := by
  simp only [dresOf]
  by_cases he : rowGet row "Date" = ""
  · rw [if_pos he]
  · rw [if_neg he, h1]
    exact h2

/-- C4: when the Date value fails both parse attempts (the zoned format,
then the plain format on the string with its last four characters
stripped), every record of the row has empty Date Fixed, Week and Month,
and the Appointment ID keeps the five-segment dash structure with empty
date and time fragments. -/
theorem claim_C4 (row : Row)
    (h1 : parseWithZone (rowGet row "Date").data = none)
    (h2 : parseNoZone (strDropRight (rowGet row "Date") 4).data = none)
    (i : Nat) (hi : i < numClientsOf row) :
    ((processRow row).getD i default).dateFixed = ""
    ∧ ((processRow row).getD i default).week = ""
    ∧ ((processRow row).getD i default).month = ""
    ∧ ((processRow row).getD i default).appointmentId
        = "" ++ "-" ++ "" ++ "-" ++ (uniqueIdsOf row).getD i "" ++ "-"
          ++ apptTypeAbbrOf row ++ "-" ++ providerAbbrOf row := by
  have hd := dres_none row h1 h2
  have hdate : dateOnlyOf row = "" := by unfold dateOnlyOf; rw [hd]
  have hdfi : dateForIdOf row = "" := by unfold dateForIdOf; rw [hd]
  have htfi : timeForIdOf row = "" := by unfold timeForIdOf; rw [hd]
  have hwm : weekMonthOf row = ("", "") := by simp [weekMonthOf, hdate]
  rw [processRow_getD row i hi]
  refine ⟨?_, ?_, ?_, ?_⟩
  · show newRowValue row i "Date Fixed" = ""
    rw [newRowValue_dateFixed, hdate]
  · show newRowValue row i "Week" = ""
    rw [newRowValue_week, hwm]
  · show newRowValue row i "Month" = ""
    rw [newRowValue_month, hwm]
  · show newRowValue row i "Appointment ID" = _
    rw [newRowValue_apptId, hdfi, htfi]

/-- C4, witness at a row whose Date is "not a date". -/
theorem claim_C4_witness :
    parseWithZone (rowGet exC4Row "Date").data = none
    ∧ parseNoZone (strDropRight (rowGet exC4Row "Date") 4).data = none
    ∧ (((processRow exC4Row).getD 0 default).dateFixed = ""
       ∧ ((processRow exC4Row).getD 0 default).week = ""
       ∧ ((processRow exC4Row).getD 0 default).month = ""
       ∧ ((processRow exC4Row).getD 0 default).appointmentId
           = "" ++ "-" ++ "" ++ "-" ++ (uniqueIdsOf exC4Row).getD 0 "" ++ "-"
             ++ apptTypeAbbrOf exC4Row ++ "-" ++ providerAbbrOf exC4Row) :=
  ⟨by decide, by decide, claim_C4 exC4Row (by decide) (by decide) 0 (by decide)⟩

/-- C5: the specification's worked example row produces exactly two
records; the first has Status "Occurred" with Missing Info containing
"Note" but not "Status", and the second has Status "Did not attend". -/
theorem claim_C5 :
    (processRow ex5Row).length = 2
    ∧ ((processRow ex5Row).getD 0 default).status = "Occurred"
    ∧ "Note" ∈ missingTags ex5Row 0
    ∧ "Status" ∉ missingTags ex5Row 0
    ∧ ((processRow ex5Row).getD 1 default).status = "Did not attend" := by decide

/-- C6: a non-empty table without the Client Name column makes the whole
transform fail (no output for any row), while a row that has Client Name
is processed normally — missing optional columns default to empty string
instead of erroring. -/
theorem claim_C6 :
    (∀ rows : List Row, rows ≠ [] →
        (∀ r ∈ rows, List.lookup "Client Name" r = none) → processTable rows = none)
    ∧ (∀ row : Row, (List.lookup "Client Name" row).isSome →
        processRowChecked row = some (processRow row)) := by
  constructor
  · intro rows hne hall
    cases rows with
    | nil => exact absurd rfl hne
    | cons r rest =>
      have h1 : processRowChecked r = none := by
        unfold processRowChecked
        rw [hall r (List.mem_cons_self r rest)]
      simp [processTable, h1]
  · intro row h
    unfold processRowChecked
    cases hl : List.lookup "Client Name" row with
    | none => rw [hl] at h; exact absurd h (by simp)
    | some v => rfl

/-- C6, witness: a concrete headerless-name table fails, and a concrete
row with only Client Name succeeds. -/
theorem claim_C6_witness :
    processTable [exC6RowA] = none
    ∧ processRowChecked exC6RowB = some (processRow exC6RowB) :=
  ⟨claim_C6.1 [exC6RowA] (by decide) (by decide), claim_C6.2 exC6RowB (by decide)⟩

lemma wordsGo_mem : ∀ (l acc : List Char), (∀ c ∈ acc, isSpace c = false) →
    ∀ w ∈ wordsGo l acc, w ≠ [] ∧ ∀ c ∈ w, isSpace c = false := by
  intro l
  induction l with
  | nil =>
    intro acc hacc w hw
    simp only [wordsGo] at hw
    by_cases ha : acc = []
    · rw [if_pos ha] at hw
      simp at hw
    · rw [if_neg ha] at hw
      rw [List.mem_singleton] at hw
      subst hw
      refine ⟨fun hrev => ha (List.reverse_eq_nil_iff.mp hrev), ?_⟩
      intro c hc
      exact hacc c (List.mem_reverse.mp hc)
  | cons c t ih =>
    intro acc hacc w hw
    simp only [wordsGo] at hw
    by_cases hs : isSpace c = true
    · rw [if_pos hs] at hw
      by_cases ha : acc = []
      · rw [if_pos ha] at hw
        exact ih [] (by simp) w hw
      · rw [if_neg ha] at hw
        rcases List.mem_cons.mp hw with hw1 | hw2
        · subst hw1
          refine ⟨fun hrev => ha (List.reverse_eq_nil_iff.mp hrev), ?_⟩
          intro x hx
          exact hacc x (List.mem_reverse.mp hx)
        · exact ih [] (by simp) w hw2
    · rw [if_neg hs] at hw
      refine ih (c :: acc) ?_ w hw
      intro x hx
      rcases List.mem_cons.mp hx with hx1 | hx2
      · subst hx1; simpa using hs
      · exact hacc x hx2

lemma nods_tail {a : Char} {t : List Char} (h : nods (a :: t) = true) : nods t = true := by
  cases t with
  | nil => rfl
  | cons b t' =>
    have h' : (!(a == ' ' && b == ' ') && nods (b :: t')) = true := h
    simp only [Bool.and_eq_true] at h'
    exact h'.2

lemma nods_spaceless_append : ∀ (w m : List Char), (∀ c ∈ w, (c == ' ') = false) →
    nods m = true → nods (w ++ m) = true := by
  intro w
  induction w with
  | nil => intro m _ hm; simpa using hm
  | cons a w' ih =>
    intro m hw hm
    have ha : (a == ' ') = false := hw a (List.mem_cons_self a w')
    have htail : nods (w' ++ m) = true :=
      ih m (fun c hc => hw c (List.mem_cons_of_mem a hc)) hm
    show nods (a :: (w' ++ m)) = true
    cases hwm : w' ++ m with
    | nil => rfl
    | cons b t' =>
      rw [hwm] at htail
      show (!(a == ' ' && b == ' ') && nods (b :: t')) = true
      rw [ha, Bool.false_and]
      simpa using htail

lemma nods_cons_space : ∀ (m : List Char), nods m = true →
    (∀ b t', m = b :: t' → (b == ' ') = false) → nods (' ' :: m) = true := by
  intro m hm hhead
  cases m with
  | nil => rfl
  | cons b t' =>
    have hb := hhead b t' rfl
    show (!(' ' == ' ' && b == ' ') && nods (b :: t')) = true
    rw [hb, Bool.and_false]
    simpa using hm

lemma joinSpace_head (w : List Char) (ws : List (List Char)) :
    ∃ rest, joinSpace (w :: ws) = w ++ rest := by
  cases ws with
  | nil => exact ⟨[], by simp [joinSpace]⟩
  | cons w2 ws' => exact ⟨' ' :: joinSpace (w2 :: ws'), rfl⟩

lemma nods_joinSpace : ∀ (ws : List (List Char)),
    (∀ w ∈ ws, w ≠ [] ∧ ∀ c ∈ w, (c == ' ') = false) → nods (joinSpace ws) = true := by
  intro ws
  induction ws with
  | nil => intro _; rfl
  | cons w ws' ih =>
    intro h
    have hw := h w (List.mem_cons_self w ws')
    have hws' : ∀ x ∈ ws', x ≠ [] ∧ ∀ c ∈ x, (c == ' ') = false :=
      fun x hx => h x (List.mem_cons_of_mem w hx)
    cases ws' with
    | nil =>
      show nods (joinSpace [w]) = true
      rw [show joinSpace [w] = w from rfl]
      have := nods_spaceless_append w [] hw.2 rfl
      rwa [List.append_nil] at this
    | cons w2 ws'' =>
      show nods (w ++ ' ' :: joinSpace (w2 :: ws'')) = true
      apply nods_spaceless_append w _ hw.2
      apply nods_cons_space
      · exact ih hws'
      · intro b t' heq
        obtain ⟨rest, hrest⟩ := joinSpace_head w2 ws''
        have hw2 := hws' w2 (List.mem_cons_self w2 ws'')
        rw [hrest] at heq
        cases hw2c : w2 with
        | nil => exact absurd hw2c hw2.1
        | cons c2 t2 =>
          rw [hw2c, List.cons_append] at heq
          have hc2 : c2 = b := (List.cons.injEq _ _ _ _).mp heq |>.1
          rw [← hc2]
          exact hw2.2 c2 (by rw [hw2c]; exact List.mem_cons_self c2 t2)

lemma nods_no_dd : ∀ (l : List Char), nods l = true → pyContains [' ', ' '] l = false := by
  intro l
  induction l with
  | nil => intro _; rfl
  | cons c t ih =>
    intro h
    have ht := ih (nods_tail h)
    show ([' ', ' '].isPrefixOf (c :: t) || pyContains [' ', ' '] t) = false
    rw [ht, Bool.or_false]
    cases t with
    | nil =>
      simp only [List.isPrefixOf]
      rw [Bool.and_false]
    | cons b t' =>
      have h' : (!(c == ' ' && b == ' ') && nods (b :: t')) = true := h
      have h1 : (c == ' ' && b == ' ') = false := by
        cases hcb : (c == ' ' && b == ' ') with
        | false => rfl
        | true =>
          simp only [Bool.and_eq_true] at h'
          have := h'.1
          rw [hcb] at this
          simp at this
      simp only [List.isPrefixOf]
      rcases Bool.and_eq_false_iff.mp h1 with hcf | hbf
      · have hcf' : (' ' == c) = false :=
          beq_eq_false_iff_ne.mpr (Ne.symm (beq_eq_false_iff_ne.mp hcf))
        rw [hcf', Bool.false_and]
      · have hbf' : (' ' == b) = false :=
          beq_eq_false_iff_ne.mpr (Ne.symm (beq_eq_false_iff_ne.mp hbf))
        rw [hbf', Bool.false_and, Bool.and_false]

/-- C7: the normalized appointment type never contains a double space, so
the double-space cleaning branch's condition (the source's containment
test) is false on every normalized form — in particular whenever the
normalized form lacks `" - "`, the branch is not taken. -/
theorem claim_C7 (s : String) :
    pyContains [' ', ' '] (normalizeWs s).data = false := by
  have hws : ∀ w ∈ wordsOf (trimChars s.data), w ≠ [] ∧ ∀ c ∈ w, (c == ' ') = false := by
    intro w hw
    have h1 := wordsGo_mem (trimChars s.data) [] (by simp) w hw
    refine ⟨h1.1, ?_⟩
    intro c hc
    have h2 := h1.2 c hc
    have hne : c ≠ ' ' := by
      intro he
      rw [he] at h2
      exact absurd h2 (by decide)
    exact beq_eq_false_iff_ne.mpr hne
  show pyContains [' ', ' '] (joinSpace (wordsOf (trimChars s.data))) = false
  exact nods_no_dd _ (nods_joinSpace _ hws)

lemma wordsGo_allspace : ∀ (sp : List Char), (∀ c ∈ sp, isSpace c = true) →
    ∀ acc, wordsGo sp acc = if acc = [] then [] else [acc.reverse] := by
  intro sp
  induction sp with
  | nil => intro _ acc; rfl
  | cons c t ih =>
    intro hsp acc
    have hc : isSpace c = true := hsp c (List.mem_cons_self c t)
    have ht : ∀ x ∈ t, isSpace x = true := fun x hx => hsp x (List.mem_cons_of_mem c hx)
    simp only [wordsGo]
    rw [if_pos hc]
    have ht0 : wordsGo t [] = [] := by rw [ih ht []]; rfl
    rw [ht0]

lemma wordsGo_cons_space {c : Char} (hc : isSpace c = true) (t : List Char) :
    wordsGo (c :: t) [] = wordsGo t [] := by
  simp only [wordsGo]
  rw [if_pos hc]
  simp

lemma wordsGo_append_spaces (sp : List Char) (hsp : ∀ c ∈ sp, isSpace c = true) :
    ∀ (l acc : List Char), wordsGo (l ++ sp) acc = wordsGo l acc := by
  intro l
  induction l with
  | nil =>
    intro acc
    rw [List.nil_append, wordsGo_allspace sp hsp acc]
    rfl
  | cons c t ih =>
    intro acc
    show wordsGo (c :: (t ++ sp)) acc = wordsGo (c :: t) acc
    simp only [wordsGo, ih]

lemma wordsOf_dropWhile : ∀ (l : List Char), wordsOf (l.dropWhile isSpace) = wordsOf l := by
  intro l
  induction l with
  | nil => rfl
  | cons c t ih =>
    by_cases hc : isSpace c = true
    · rw [List.dropWhile_cons, if_pos hc, ih]
      show wordsGo t [] = wordsGo (c :: t) []
      rw [wordsGo_cons_space hc]
    · rw [List.dropWhile_cons, if_neg hc]

lemma wordsOf_trim : ∀ (l : List Char), wordsOf (trimChars l) = wordsOf l := by
  intro l
  obtain ⟨sp, hsp, heq⟩ :
      ∃ sp, (∀ c ∈ sp, isSpace c = true) ∧ l.dropWhile isSpace = trimChars l ++ sp := by
    refine ⟨((l.dropWhile isSpace).reverse.takeWhile isSpace).reverse, ?_, ?_⟩
    · intro c hc
      rw [List.mem_reverse] at hc
      exact List.mem_takeWhile_imp hc
    · have h0 : (l.dropWhile isSpace).reverse.takeWhile isSpace
          ++ (l.dropWhile isSpace).reverse.dropWhile isSpace = (l.dropWhile isSpace).reverse :=
        List.takeWhile_append_dropWhile isSpace ((l.dropWhile isSpace).reverse)
      have h1 := congrArg List.reverse h0
      rw [List.reverse_append, List.reverse_reverse] at h1
      exact h1.symm
  have h1 : wordsOf (trimChars l ++ sp) = wordsOf (trimChars l) := by
    unfold wordsOf
    exact wordsGo_append_spaces sp hsp (trimChars l) []
  rw [← h1, ← heq]
  exact wordsOf_dropWhile l

lemma wordsGo_through : ∀ (w : List Char), (∀ c ∈ w, isSpace c = false) →
    ∀ (l acc : List Char), wordsGo (w ++ l) acc = wordsGo l (w.reverse ++ acc) := by
  intro w
  induction w with
  | nil => intro _ l acc; simp
  | cons c w' ih =>
    intro hw l acc
    have hc : isSpace c = false := hw c (List.mem_cons_self c w')
    have hw' : ∀ x ∈ w', isSpace x = false := fun x hx => hw x (List.mem_cons_of_mem c hx)
    show wordsGo (c :: (w' ++ l)) acc = _
    simp only [wordsGo]
    rw [if_neg (by simp [hc])]
    rw [ih hw' l (c :: acc)]
    congr 1
    simp

lemma wordsOf_spaceless (w : List Char) (hw : ∀ c ∈ w, isSpace c = false) (hne : w ≠ []) :
    wordsOf w = [w] := by
  unfold wordsOf
  have h := wordsGo_through w hw [] []
  rw [List.append_nil, List.append_nil] at h
  rw [h]
  show (if w.reverse = [] then [] else [w.reverse.reverse]) = [w]
  rw [if_neg (fun hrev => hne (List.reverse_eq_nil_iff.mp hrev))]
  rw [List.reverse_reverse]

lemma wordsOf_joinSpace : ∀ (ws : List (List Char)),
    (∀ w ∈ ws, w ≠ [] ∧ ∀ c ∈ w, isSpace c = false) → wordsOf (joinSpace ws) = ws := by
  intro ws
  induction ws with
  | nil => intro _; rfl
  | cons w ws' ih =>
    intro h
    have hw := h w (List.mem_cons_self w ws')
    have hws' : ∀ x ∈ ws', x ≠ [] ∧ ∀ c ∈ x, isSpace c = false :=
      fun x hx => h x (List.mem_cons_of_mem w hx)
    cases ws' with
    | nil =>
      show wordsOf (joinSpace [w]) = [w]
      rw [show joinSpace [w] = w from rfl]
      exact wordsOf_spaceless w hw.2 hw.1
    | cons w2 ws'' =>
      show wordsOf (w ++ ' ' :: joinSpace (w2 :: ws'')) = w :: w2 :: ws''
      unfold wordsOf
      rw [wordsGo_through w hw.2 (' ' :: joinSpace (w2 :: ws'')) []]
      rw [List.append_nil]
      simp only [wordsGo]
      rw [if_pos (show isSpace ' ' = true by decide)]
      rw [if_neg (fun hrev => hw.1 (List.reverse_eq_nil_iff.mp hrev))]
      rw [List.reverse_reverse]
      show w :: wordsOf (joinSpace (w2 :: ws'')) = w :: w2 :: ws''
      rw [ih hws']

/-- C9: the appointment-type normalization (collapse whitespace runs, trim)
is idempotent: normalizing an already-normalized string returns it
unchanged. -/
theorem claim_C9 (s : String) : normalizeWs (normalizeWs s) = normalizeWs s := by
  have hws : ∀ w ∈ wordsOf (trimChars s.data), w ≠ [] ∧ ∀ c ∈ w, isSpace c = false :=
    fun w hw => wordsGo_mem (trimChars s.data) [] (by simp) w hw
  show (⟨joinSpace (wordsOf (trimChars (normalizeWs s).data))⟩ : String) = normalizeWs s
  have hdata : (normalizeWs s).data = joinSpace (wordsOf (trimChars s.data)) := rfl
  rw [hdata, wordsOf_trim, wordsOf_joinSpace _ hws]
  rfl

end AntelopeBilling
